import Mathlib

/-!
Verification of the real-time STT streaming core of the debabelize_me
repository.  JavaScript strings are embedded as lists of characters,
floating-point audio samples as exact rationals, and the stateful
browser callbacks as explicit state-passing functions.  Each definition
is translated from the source file named in its doc comment.
-/

set_option maxHeartbeats 1000000

/-- Embedding of a JavaScript string as a list of characters. -/
abbrev JStr := List Char

/-- Whitespace test used by the embedding of JavaScript `String.prototype.trim`
(space, tab, newline, carriage return). -/
def jsWS (c : Char) : Bool :=
  c == ' ' || c == '\t' || c == '\n' || c == '\r'

/-- Embedding of JavaScript `s.trim()`: drop whitespace from the front,
then from the back. -/
def jsTrim (s : JStr) : JStr :=
  ((s.dropWhile jsWS).reverse.dropWhile jsWS).reverse

/-- Embedding of JavaScript `s.toLowerCase()`. -/
def jsToLower (s : JStr) : JStr := s.map Char.toLower

/-- Embedding of JavaScript `hay.includes(needle)`. -/
def jsIncludes : JStr → JStr → Bool
  | [], needle => needle.isEmpty
  | hay@(_ :: t), needle => needle.isPrefixOf hay || jsIncludes t needle

/-- Embedding of JavaScript `s.split(sep)` for a character-class separator:
always returns at least one (possibly empty) part. -/
def jsSplitP (p : Char → Bool) : JStr → List JStr
  | [] => [[]]
  | c :: t =>
    if p c then [] :: jsSplitP p t
    else
      match jsSplitP p t with
      | [] => [[c]]
      | w :: ws => (c :: w) :: ws

/-- Sentence-terminator class of the regular expression `[.!?]` in
`MessageInput.tsx`. -/
def sentCh (c : Char) : Bool := c == '.' || c == '!' || c == '?'

/-- Embedding of JavaScript `s.lastIndexOf(sub)`: the largest start index at
which `sub` occurs in `s`, or `-1` when it does not occur. -/
def jsLastIndexOf (s sub : JStr) : Int :=
  match (List.range (s.length + 1)).reverse.find? (fun i => sub.isPrefixOf (s.drop i)) with
  | some i => (i : Int)
  | none => -1

/-- Embedding of JavaScript `s.substring(0, e)` (a negative end index is
clamped to 0, yielding the empty string). -/
def jsSubstringTo (s : JStr) (e : Int) : JStr := s.take (max 0 e).toNat

/-- Embedding of `appendValue` from
`src/frontend/components/MessageInput.tsx` lines 34-85: the dedupe-aware
append of finalized speech text into the message input state. -/
def appendValue (prev value : JStr) : JStr :=
  let trimmedValue := jsTrim value
  let trimmedPrev := jsTrim prev
  if trimmedValue.isEmpty then prev
  else if trimmedPrev.isEmpty then trimmedValue
  else
    let lowerValue := jsToLower trimmedValue
    let lowerPrev := jsToLower trimmedPrev
    if lowerPrev == lowerValue || jsIncludes lowerPrev lowerValue then prev
    else
      let valueWords := jsSplitP (fun c => c == ' ') lowerValue
      let prevWords := jsSplitP (fun c => c == ' ') lowerPrev
      let matchingWords := valueWords.filter (fun w => prevWords.contains w)
      let overlapRatio : ℚ := (matchingWords.length : ℚ) / (valueWords.length : ℚ)
      if overlapRatio > 7/10 then prev
      else
        let lastSentence := jsTrim ((jsSplitP sentCh trimmedPrev).getLastD [])
        if !lastSentence.isEmpty && (jsToLower lastSentence).isPrefixOf lowerValue then
          let beforeLast := jsSubstringTo trimmedPrev (jsLastIndexOf trimmedPrev lastSentence)
          if beforeLast.isEmpty then trimmedValue else beforeLast ++ trimmedValue
        else
          let needsSpace := !trimmedPrev.isEmpty &&
            !(decide (trimmedPrev.getLast? = some ' ')) &&
            !(decide (trimmedValue.head? = some ' '))
          if needsSpace then trimmedPrev ++ ' ' :: trimmedValue
          else trimmedPrev ++ trimmedValue

/-! ## Utterance assembler (word-level finals)

Embedding of the `ws.onmessage` word-final branch and the finalize timer
of `src/frontend/components/ChatInterface.tsx` lines 441-500
(identically `src/unnamed/part_001` lines 637-696): the buffer is
`currentUtteranceRef.current`, a word-final token appends its text with a
single separating space, and the timer callback commits the trimmed
buffer and clears it. -/

/-- One word-level final token appended to the utterance buffer:
`currentUtteranceRef.current += (currentUtteranceRef.current ? ' ' : '') + data.text`. -/
def onWordFinal (buf t : JStr) : JStr :=
  buf ++ (if buf.isEmpty then [] else [' ']) ++ t

/-- The finalize-timer callback (`ChatInterface.tsx` lines 465-474): when the
trimmed buffer is non-empty it is committed (the committed text is the
trimmed buffer) and the buffer is cleared; otherwise nothing happens. -/
def onFinalizeTimer (buf : JStr) : JStr × Option JStr :=
  if (jsTrim buf).isEmpty then (buf, none)
  else ([], some (jsTrim buf))

/-- Events seen by the word-level assembler on one open connection: a
word-final token arriving before the finalize timer fires (which re-arms the
timer), or the timer firing after the timeout elapses with no new word. -/
inductive STTEvent where
  | word (t : JStr)
  | timerFire

/-- Runs the assembler over a trace of events, returning the final buffer and
the list of committed utterances in order. -/
def runAssembler : JStr → List STTEvent → JStr × List JStr
  | buf, [] => (buf, [])
  | buf, .word t :: es => runAssembler (onWordFinal buf t) es
  | buf, .timerFire :: es =>
    let step := onFinalizeTimer buf
    let rest := runAssembler step.1 es
    (rest.1, step.2.toList ++ rest.2)

/-! ## Out-of-cadence finalization (close / stop / send) -/

/-- Word buffer paired with the message-input state it commits into. -/
structure InputState where
  buffer : JStr
  message : JStr
deriving DecidableEq

/-- Finalization slice of `ws.onclose` (`ChatInterface.tsx` lines 506-522):
a pending utterance with non-blank text is appended to the message input and
the buffer is cleared. -/
def finalizeOnClose (s : InputState) : InputState :=
  if (jsTrim s.buffer).isEmpty then s
  else { buffer := [], message := appendValue s.message (jsTrim s.buffer) }

/-- Finalization slice of the stop branch of `toggleRecording`
(`ChatInterface.tsx` lines 562-574, `src/unnamed/part_001` lines 739-751). -/
def finalizeOnStop (s : InputState) : InputState :=
  if (jsTrim s.buffer).isEmpty then s
  else { buffer := [], message := appendValue s.message (jsTrim s.buffer) }

/-- Finalization slice at the top of `handleSendMessage`
(`src/unnamed/part_001` lines 176-193), run immediately before a send. -/
def finalizeBeforeSend (s : InputState) : InputState :=
  if (jsTrim s.buffer).isEmpty then s
  else { buffer := [], message := appendValue s.message (jsTrim s.buffer) }

/-! ## Voice-activity detection and gating

Embedding of the activity-analysis section of `processor.onaudioprocess`
(`ChatInterface.tsx` lines 321-358).  Float samples are embedded as exact
rationals. -/

/-- Peak absolute amplitude of a frame (`maxAmplitude` accumulator). -/
def frameMaxAmp (xs : List ℚ) : ℚ := xs.foldl (fun m x => max m |x|) 0

/-- Sum of absolute amplitudes (the `avgAmplitude` accumulator before the
division by the frame length). -/
def frameSumAmp (xs : List ℚ) : ℚ := xs.foldl (fun a x => a + |x|) 0

/-- Number of samples above the 0.001 sensitivity threshold
(`nonZeroSamples`). -/
def frameNonZero (xs : List ℚ) : ℕ := (xs.filter (fun x => |x| > 1/1000)).length

/-- Primary activity test: some sample exceeds the 0.003 detection
threshold. -/
def framePeakTest (xs : List ℚ) : Bool := xs.any (fun x => |x| > 3/1000)

/-- The `hasAudio` flag of one frame: the peak test, with a backup
mean-amplitude test when more than 10% of samples are non-zero. -/
def hasAudioOf (xs : List ℚ) : Bool :=
  if framePeakTest xs then true
  else if (frameNonZero xs : ℚ) > (xs.length : ℚ) * (1/10) then
    decide (frameSumAmp xs / (xs.length : ℚ) > 15/10000)
  else false

/-- The `RECENT_AUDIO_THRESHOLD` constant (`ChatInterface.tsx` line 277). -/
def RECENT_AUDIO_THRESHOLD : ℤ := 2

/-- Update of `recentAudioFramesWithActivity` (`ChatInterface.tsx` lines
348-353): reset to the threshold on activity, else decrement floored at 0. -/
def updateActivity (hasAudio : Bool) (c : ℤ) : ℤ :=
  if hasAudio then RECENT_AUDIO_THRESHOLD else max 0 (c - 1)

/-- Per-session gating state: the `isFirstAudioFrame` flag and the
recent-activity counter. -/
structure GateState where
  isFirst : Bool
  recent : ℤ
deriving DecidableEq

/-- Initial gating state of a recording session (`ChatInterface.tsx` lines
275-276). -/
def initGateState : GateState := { isFirst := true, recent := 0 }

/-- The gating decision of one `onaudioprocess` callback
(`ChatInterface.tsx` lines 348-358 and 404-407): the counter is updated
first, then the frame is skipped exactly when there is no audio, the counter
has decayed to zero and this is not the first frame; a forwarded frame
clears the first-frame flag.  Returns `true` when the frame is forwarded. -/
def gateStep (xs : List ℚ) (s : GateState) : Bool × GateState :=
  let ha := hasAudioOf xs
  let r := updateActivity ha s.recent
  if !ha && decide (r = 0) && !s.isFirst then
    (false, { isFirst := s.isFirst, recent := r })
  else
    (true, { isFirst := false, recent := r })

/-! ## Transport reconnection (ChatInterface.tsx)

Embedding of the reconnect-with-ceiling logic: the closed-socket branch of
`processor.onaudioprocess` (`ChatInterface.tsx` lines 284-319) and the
counter reset in `ws.onopen` (lines 419-439). -/

/-- The `maxReconnectAttempts` constant (`ChatInterface.tsx` line 98). -/
def maxReconnectAttempts : ℕ := 3

/-- Reconnection-relevant events: an audio callback firing while the socket
is not open, and a successful socket open. -/
inductive ConnEvent where
  | frameWhileClosed
  | openSuccess
deriving DecidableEq

/-- Per-session reconnection state: the `reconnectAttempts` counter and the
`isRecording` flag. -/
structure ReconnState where
  attempts : ℕ
  recording : Bool
deriving DecidableEq

/-- One step of the reconnection logic; the boolean reports whether a new
connection attempt was made.  A callback on a non-open socket attempts a
reconnect only while the counter is below the ceiling, incrementing it;
at the ceiling it stops the recording instead.  A successful open resets
the counter to zero. -/
def reconnStep : ReconnState → ConnEvent → ReconnState × Bool
  | s, .frameWhileClosed =>
    if s.attempts < maxReconnectAttempts then
      ({ attempts := s.attempts + 1, recording := s.recording }, true)
    else
      ({ attempts := s.attempts, recording := false }, false)
  | _, .openSuccess => ({ attempts := 0, recording := true }, false)

/-- Runs the reconnection machine over an event trace, counting the
connection attempts made. -/
def runReconn : ReconnState → List ConnEvent → ReconnState × ℕ
  | s, [] => (s, 0)
  | s, e :: es =>
    let step := reconnStep s e
    let rest := runReconn step.1 es
    (rest.1, (if step.2 then 1 else 0) + rest.2)

/-! ## Audio buffering during connection establishment (part_001)

Embedding of the transport slice of `processor.onaudioprocess` in
`src/unnamed/part_001` lines 424-605: the early returns on a non-open
socket, the `audioBuffer` queue used while the socket has not yet signalled
`onopen`, and the flush-then-send path once it has. -/

/-- The `MAX_BUFFER_SIZE` constant (`src/unnamed/part_001` line 417). -/
def MAX_BUFFER_SIZE : ℕ := 20

/-- WebSocket `readyState` values. -/
inductive WSReady where
  | connecting
  | wsOpen
  | closing
  | wsClosed
deriving DecidableEq

/-- State of the audio-forwarding path: socket readiness, the `onopen`-set
`isWebSocketReady` flag, the user-stop flag, the reconnect counter, the
`audioBuffer` queue of pending frames (oldest first) and the frames already
handed to the socket (oldest first).  Frames are abstract identifiers. -/
structure AudioSendState where
  readyState : WSReady
  socketReady : Bool
  userStopped : Bool
  reconnAttempts : ℕ
  audioBuffer : List ℕ
  sent : List ℕ
deriving DecidableEq

/-- What became of one frame in one callback. -/
inductive FrameOutcome where
  | dropped
  | buffered
  | sentNow
deriving DecidableEq

/-- One `onaudioprocess` callback of `src/unnamed/part_001` (lines 424-605)
restricted to its transport decisions, for a frame `f` that passed the
activity gate: a stopped session ignores the frame; a CONNECTING socket
returns early (the frame is neither queued nor sent); a CLOSED or CLOSING
socket triggers reconnect bookkeeping and likewise returns early; an OPEN
socket whose `onopen` has not yet run queues the frame only while the queue
holds fewer than `MAX_BUFFER_SIZE` frames (a full queue keeps its old frames
and the new frame is discarded); a ready socket first flushes the queue in
order, then sends the frame. -/
def audioFrameStep (s : AudioSendState) (f : ℕ) : AudioSendState × FrameOutcome :=
  if s.userStopped then (s, .dropped)
  else if s.readyState = .connecting then (s, .dropped)
  else if s.readyState = .wsClosed ∨ s.readyState = .closing then
    if s.reconnAttempts < maxReconnectAttempts then
      ({ s with readyState := .connecting, socketReady := false,
                reconnAttempts := s.reconnAttempts + 1 }, .dropped)
    else
      ({ s with userStopped := true }, .dropped)
  else if !s.socketReady then
    if s.audioBuffer.length < MAX_BUFFER_SIZE then
      ({ s with audioBuffer := s.audioBuffer ++ [f] }, .buffered)
    else (s, .dropped)
  else
    ({ s with audioBuffer := [], sent := s.sent ++ s.audioBuffer ++ [f] }, .sentNow)

/-! ## Resampling (ChatInterface.tsx lines 360-381) -/

/-- Embedding of the linear-interpolation resampling loop run when the
source sample rate differs from the 16 kHz target
(`ChatInterface.tsx` lines 362-378, `src/unnamed/part_001` lines 538-554):
`resampleRatio = targetSampleRate / sourceSampleRate`,
`srcIndex = i / resampleRatio`, with a clamp to the last source sample when
`Math.ceil(srcIndex)` reaches the source length. -/
def resampleFrame (src : List ℚ) (sourceSampleRate targetSampleRate : ℚ) : List ℚ :=
  let resampleRatio := targetSampleRate / sourceSampleRate
  let targetLength := (⌊(src.length : ℚ) * resampleRatio⌋).toNat
  (List.range targetLength).map (fun (i : ℕ) =>
    let srcIndex : ℚ := (i : ℚ) / resampleRatio
    let srcIndexFloor : ℤ := ⌊srcIndex⌋
    let srcIndexCeil : ℤ := ⌈srcIndex⌉
    if (src.length : ℤ) ≤ srcIndexCeil then src.getLastD 0
    else
      let fraction := srcIndex - (srcIndexFloor : ℚ)
      src.getD srcIndexFloor.toNat 0 * (1 - fraction) +
        src.getD srcIndexCeil.toNat 0 * fraction)

/-- The per-sample resampling formula exactly as claim C3 words it, with
`idx = i * (targetRate / sourceRate)`; stated only to be compared against
`resampleFrame`, which is translated from the source. -/
def claimedResampleFormula (src : List ℚ) (sourceSampleRate targetSampleRate : ℚ)
    (i : ℕ) : ℚ :=
  let idx : ℚ := (i : ℚ) * (targetSampleRate / sourceSampleRate)
  let f := idx - (⌊idx⌋ : ℚ)
  if (src.length : ℤ) ≤ ⌈idx⌉ then src.getLastD 0
  else src.getD (⌊idx⌋).toNat 0 * (1 - f) + src.getD (⌈idx⌉).toNat 0 * f

/-! ## PCM quantization (ChatInterface.tsx lines 383-395) -/

/-- Truncation toward zero, as performed when a JavaScript number is stored
into an `Int16Array` slot (the stored value is in range for every sample the
quantizer produces, so no wrap-around occurs). -/
def jsTruncToInt (q : ℚ) : ℤ := if 0 ≤ q then ⌊q⌋ else -⌊-q⌋

/-- The dynamic gain factor chosen from the frame's peak amplitude
(`ChatInterface.tsx` line 387):
`maxAmplitude < 0.1 ? 2.0 : (maxAmplitude < 0.3 ? 1.5 : 1.2)`. -/
def dynamicGain (maxAmplitude : ℚ) : ℚ :=
  if maxAmplitude < 1/10 then 2
  else if maxAmplitude < 3/10 then 3/2
  else 6/5

/-- Quantization of one float sample (`ChatInterface.tsx` lines 389-395):
apply the gain, clamp to [-1, 1], then scale by 0x8000 for negative values
and 0x7FFF otherwise before storage into the `Int16Array`. -/
def quantizeSample (gain x : ℚ) : ℤ :=
  let boostedSample := x * gain
  let clampedSample := max (-1) (min 1 boostedSample)
  if clampedSample < 0 then jsTruncToInt (clampedSample * 32768)
  else jsTruncToInt (clampedSample * 32767)

/-! ## Lemmas about the string model -/

/-- The trim embedding is dropping whitespace from the front and then from
the back. -/
theorem jsTrim_eq_rdropWhile (s : JStr) :
    jsTrim s = (s.dropWhile jsWS).rdropWhile jsWS := rfl

/-- A list unchanged by `dropWhile` has a head not satisfying the
predicate. -/
theorem head_false_of_dropWhile_eq {p : Char → Bool} {c : Char} {cs : JStr}
    (h : (c :: cs).dropWhile p = c :: cs) : p c = false := by
  by_contra hc
  rw [Bool.not_eq_false] at hc
  rw [List.dropWhile_cons, if_pos hc] at h
  have h1 := congrArg List.length h
  have h2 : (List.dropWhile p cs).length ≤ cs.length :=
    (List.dropWhile_suffix p).sublist.length_le
  simp only [List.length_cons] at h1
  omega

/-- Trimming is idempotent. -/
theorem jsTrim_idem (s : JStr) : jsTrim (jsTrim s) = jsTrim s := by
  rw [jsTrim_eq_rdropWhile, jsTrim_eq_rdropWhile]
  have hm : (s.dropWhile jsWS).dropWhile jsWS = s.dropWhile jsWS :=
    List.dropWhile_idempotent _ _
  have h1 : ((s.dropWhile jsWS).rdropWhile jsWS).dropWhile jsWS =
      (s.dropWhile jsWS).rdropWhile jsWS := by
    rcases hpre : (s.dropWhile jsWS).rdropWhile jsWS with _ | ⟨c, cs⟩
    · rfl
    · obtain ⟨t, ht⟩ := List.rdropWhile_prefix jsWS (s.dropWhile jsWS)
      rw [hpre] at ht
      have hc : jsWS c = false := by
        apply @head_false_of_dropWhile_eq jsWS c (cs ++ t)
        have : s.dropWhile jsWS = c :: (cs ++ t) := by
          rw [← ht]; simp
        rw [← this]
        exact hm
      rw [List.dropWhile_cons, hc]
      simp
  rw [h1, List.rdropWhile_idempotent]

/-- A cons whose head is not whitespace, ending in a character that is not
whitespace, is unchanged by trimming. -/
theorem jsTrim_eq_self {c x : Char} {mid front : JStr}
    (hfront : c :: front = mid ++ [x])
    (hc : jsWS c = false) (hx : jsWS x = false) :
    jsTrim (c :: front) = c :: front := by
  rw [jsTrim_eq_rdropWhile, List.dropWhile_cons, hc]
  simp only [Bool.false_eq_true, if_false]
  rw [hfront, List.rdropWhile_concat_neg _ _ _ (by simp [hx])]

/-! ## Lemmas about joining word-final tokens -/

/-- Concatenation of words each preceded by one space. -/
def sepJoin (ws : List JStr) : JStr := (ws.map (fun w => ' ' :: w)).flatten

/-- Words joined by single separating spaces. -/
def joinSp : List JStr → JStr
  | [] => []
  | [w] => w
  | w :: ws => w ++ ' ' :: joinSp ws

theorem joinSp_cons (w : JStr) (ws : List JStr) :
    joinSp (w :: ws) = w ++ sepJoin ws := by
  induction ws generalizing w with
  | nil => simp [joinSp, sepJoin]
  | cons w' ws ih => simp [joinSp, sepJoin, ih w']

theorem foldl_onWordFinal (ws : List JStr) (buf : JStr) (h : buf ≠ []) :
    ws.foldl onWordFinal buf = buf ++ sepJoin ws := by
  induction ws generalizing buf with
  | nil => simp [sepJoin]
  | cons w ws ih =>
    have hb : buf.isEmpty = false := by
      cases buf with
      | nil => exact absurd rfl h
      | cons c cs => rfl
    have : onWordFinal buf w = buf ++ ' ' :: w := by
      simp [onWordFinal, hb]
    rw [List.foldl_cons, this, ih _ (by simp [h])]
    simp [sepJoin]

theorem foldl_onWordFinal_nil (w : JStr) (ws : List JStr) (h : w ≠ []) :
    (w :: ws).foldl onWordFinal [] = joinSp (w :: ws) := by
  rw [List.foldl_cons]
  have : onWordFinal [] w = w := by simp [onWordFinal]
  rw [this, foldl_onWordFinal ws w h, joinSp_cons]

/-- A join of non-empty words is non-empty and decomposes as a cons on a
non-whitespace character and a concat ending in a non-whitespace
character, provided all word characters are non-whitespace. -/
theorem joinSp_decomp :
    ∀ (texts : List JStr), texts ≠ [] →
      (∀ w ∈ texts, w ≠ [] ∧ ∀ c ∈ w, jsWS c = false) →
      ∃ c front mid x, joinSp texts = c :: front ∧ c :: front = mid ++ [x] ∧
        jsWS c = false ∧ jsWS x = false
  | [], hne, _ => absurd rfl hne
  | [w], _, hw => by
    obtain ⟨hwne, hwc⟩ := hw w (by simp)
    rcases (List.eq_nil_or_concat w).resolve_left hwne with ⟨mid, x, hmx⟩
    rw [List.concat_eq_append] at hmx
    cases w with
    | nil => exact absurd rfl hwne
    | cons c cs =>
      refine ⟨c, cs, mid, x, by simp [joinSp], hmx, hwc c (by simp), ?_⟩
      exact hwc x (by rw [hmx]; simp)
  | w :: w' :: ws, _, hw => by
    obtain ⟨c', front', mid', x', hcons', hconcat', hc', hx'⟩ :=
      joinSp_decomp (w' :: ws) (by simp)
        (fun u hu => hw u (by simp [hu]))
    obtain ⟨hwne, hwc⟩ := hw w (by simp)
    cases w with
    | nil => exact absurd rfl hwne
    | cons c cs =>
      refine ⟨c, cs ++ ' ' :: joinSp (w' :: ws), (c :: cs ++ ' ' :: mid'), x',
        by simp [joinSp], ?_, hwc c (by simp), hx'⟩
      rw [hcons', hconcat']
      simp

/-- Helper: from the decomposition, trimming the join is the identity. -/
theorem jsTrim_joinSp (texts : List JStr) (hne : texts ≠ [])
    (hw : ∀ w ∈ texts, w ≠ [] ∧ ∀ c ∈ w, jsWS c = false) :
    jsTrim (joinSp texts) = joinSp texts := by
  obtain ⟨c, front, mid, x, hj, hcat, hc, hx⟩ := joinSp_decomp texts hne hw
  rw [hj]
  exact jsTrim_eq_self hcat hc hx

theorem runAssembler_words (texts : List JStr) (buf : JStr)
    (rest : List STTEvent) :
    runAssembler buf (texts.map STTEvent.word ++ rest) =
      runAssembler (texts.foldl onWordFinal buf) rest := by
  induction texts generalizing buf with
  | nil => rfl
  | cons t ts ih => simp [runAssembler, ih]

/-! ## Claim theorems -/

/-- C1: for every sequence of word-level final tokens received on one open
connection, each arriving within the finalize timeout of the previous one
(so the re-armed timer fires only once, after the last word) and with no
stop, close, or send action intervening, the assembler commits exactly one
finalized utterance, equal to the tokens' texts joined by single spaces in
arrival order, and the word buffer is cleared after the commit.  Tokens are
words: non-empty and free of whitespace characters. -/
theorem word_finals_single_commit (texts : List JStr) (hne : texts ≠ [])
    (hw : ∀ w ∈ texts, w ≠ [] ∧ ∀ c ∈ w, jsWS c = false) :
    runAssembler [] (texts.map STTEvent.word ++ [STTEvent.timerFire]) =
      ([], [joinSp texts]) := by
  rw [runAssembler_words]
  cases texts with
  | nil => exact absurd rfl hne
  | cons w ws =>
    rw [foldl_onWordFinal_nil w ws (hw w (by simp)).1]
    have htrim := jsTrim_joinSp (w :: ws) (by simp) hw
    have hjoin_ne : joinSp (w :: ws) ≠ [] := by
      obtain ⟨c, front, _, _, hj, _⟩ := joinSp_decomp (w :: ws) (by simp) hw
      rw [hj]; simp
    have hnonempty : (jsTrim (joinSp (w :: ws))).isEmpty = false := by
      rw [htrim, List.isEmpty_eq_false]
      exact hjoin_ne
    simp [runAssembler, onFinalizeTimer, hnonempty, htrim, hjoin_ne]

/-- Witness for C1 at the spec's scenario input
`["Hello","my","name","is","Pete"]`, whose single committed utterance is
`"Hello my name is Pete"`. -/
theorem word_finals_single_commit_witness :
    runAssembler []
        ((["Hello".data, "my".data, "name".data, "is".data, "Pete".data]).map
          STTEvent.word ++ [STTEvent.timerFire]) =
      ([], [joinSp ["Hello".data, "my".data, "name".data, "is".data, "Pete".data]]) ∧
    joinSp ["Hello".data, "my".data, "name".data, "is".data, "Pete".data] =
      "Hello my name is Pete".data :=
  ⟨word_finals_single_commit _ (by decide) (by decide), by decide⟩

/-- Helper: a fold of `updateActivity` stays within the invariant band. -/
theorem foldl_updateActivity_mem (bs : List Bool) :
    ∀ c : ℤ, 0 ≤ c → c ≤ RECENT_AUDIO_THRESHOLD →
      0 ≤ bs.foldl (fun c ha => updateActivity ha c) c ∧
        bs.foldl (fun c ha => updateActivity ha c) c ≤ RECENT_AUDIO_THRESHOLD := by
  induction bs with
  | nil => intro c h0 h2; exact ⟨h0, h2⟩
  | cons b bs ih =>
    intro c h0 h2
    rw [List.foldl_cons]
    apply ih
    · cases b <;> simp [updateActivity, RECENT_AUDIO_THRESHOLD] <;> try omega
    · cases b <;> simp [updateActivity, RECENT_AUDIO_THRESHOLD] at * <;> try omega

/-- C10: the recent-activity counter satisfies
`0 ≤ counter ≤ RECENT_AUDIO_THRESHOLD = 2` before and after every
audio-processing callback: starting from the session-initial value 0, after
any sequence of per-frame activity flags (set to 2 on activity, otherwise
decremented with a floor of zero) the counter is still in the band — so it
never goes negative and never exceeds the threshold. -/
theorem activity_counter_invariant (bs : List Bool) :
    0 ≤ bs.foldl (fun c ha => updateActivity ha c) 0 ∧
      bs.foldl (fun c ha => updateActivity ha c) 0 ≤ RECENT_AUDIO_THRESHOLD ∧
      RECENT_AUDIO_THRESHOLD = 2 := by
  obtain ⟨h0, h2⟩ := foldl_updateActivity_mem bs 0 le_rfl (by decide)
  exact ⟨h0, h2, rfl⟩

/-- C8: the very first audio frame of a recording session is forwarded
regardless of activity detection, and every later frame is skipped exactly
when the activity tests fail (`hasAudioOf` is false) and the recent-activity
counter has decayed to zero after its update. -/
theorem first_frame_forwarded_gate (xs : List ℚ) (s : GateState) :
    (s.isFirst = true → (gateStep xs s).1 = true) ∧
      (s.isFirst = false →
        ((gateStep xs s).1 = false ↔
          hasAudioOf xs = false ∧ updateActivity (hasAudioOf xs) s.recent = 0)) := by
  constructor
  · intro hf
    simp only [gateStep, hf]
    split
    · rename_i h
      simp at h
    · rfl
  · intro hf
    simp only [gateStep, hf]
    constructor
    · intro h
      split at h
      · rename_i hcond
        simp only [Bool.and_eq_true, Bool.not_eq_true', decide_eq_true_eq] at hcond
        exact ⟨hcond.1.1, hcond.1.2⟩
      · simp at h
    · intro ⟨h1, h2⟩
      split
      · rfl
      · rename_i hcond
        simp only [Bool.and_eq_true, Bool.not_eq_true', decide_eq_true_eq,
          Bool.not_eq_false] at hcond
        exact absurd ⟨⟨h1, h2⟩, trivial⟩ hcond

/-- Witness for C8: a silent frame is forwarded when it is the first frame
of the session, and the same silent frame with the first-frame flag cleared
and a decayed counter is skipped. -/
theorem first_frame_forwarded_gate_witness :
    (gateStep [0, 0, 0] initGateState).1 = true ∧
      (gateStep [0, 0, 0] { isFirst := false, recent := 0 }).1 = false := by
  have hna : hasAudioOf [0, 0, 0] = false := by
    norm_num [hasAudioOf, framePeakTest, frameNonZero, List.filter]
  constructor
  · exact (first_frame_forwarded_gate [0, 0, 0] initGateState).1 rfl
  · exact ((first_frame_forwarded_gate [0, 0, 0]
      { isFirst := false, recent := 0 }).2 rfl).mpr
      ⟨hna, by rw [hna]; decide⟩

/-- Helper: one reconnection step keeps the attempt counter at or below the
ceiling. -/
theorem reconnStep_attempts_le (s : ReconnState) (e : ConnEvent)
    (hs : s.attempts ≤ maxReconnectAttempts) :
    (reconnStep s e).1.attempts ≤ maxReconnectAttempts := by
  cases e with
  | frameWhileClosed =>
    by_cases h : s.attempts < maxReconnectAttempts <;>
      simp [reconnStep, h] <;> omega
  | openSuccess => simp [reconnStep]

/-- Helper: the attempt counter never exceeds the ceiling along any event
trace. -/
theorem runReconn_attempts_le (es : List ConnEvent) :
    ∀ s : ReconnState, s.attempts ≤ maxReconnectAttempts →
      (runReconn s es).1.attempts ≤ maxReconnectAttempts := by
  induction es with
  | nil => exact fun s hs => hs
  | cons e es ih =>
    intro s hs
    simpa [runReconn] using ih _ (reconnStep_attempts_le s e hs)

/-- Helper: along a trace with no successful open, the number of attempts
made plus the starting counter stays at or below the ceiling. -/
theorem runReconn_count_le (es : List ConnEvent) :
    ∀ s : ReconnState, ConnEvent.openSuccess ∉ es →
      s.attempts ≤ maxReconnectAttempts →
      (runReconn s es).2 + s.attempts ≤ maxReconnectAttempts := by
  induction es with
  | nil => intro s _ hs; simpa [runReconn]
  | cons e es ih =>
    intro s hmem hs
    cases e with
    | openSuccess => simp at hmem
    | frameWhileClosed =>
      have hmem' : ConnEvent.openSuccess ∉ es :=
        fun h => hmem (List.mem_cons_of_mem _ h)
      by_cases h : s.attempts < maxReconnectAttempts
      · have hstep : reconnStep s ConnEvent.frameWhileClosed =
            ({ attempts := s.attempts + 1, recording := s.recording }, true) := by
          simp [reconnStep, h]
        have hrec := ih { attempts := s.attempts + 1, recording := s.recording }
          hmem' (by simp only [maxReconnectAttempts] at h ⊢; omega)
        simp only [runReconn, hstep]
        simp only [maxReconnectAttempts] at hrec h ⊢
        norm_num
        omega
      · have hstep : reconnStep s ConnEvent.frameWhileClosed =
            ({ attempts := s.attempts, recording := false }, false) := by
          simp [reconnStep, h]
        have hrec := ih { attempts := s.attempts, recording := false } hmem' hs
        simp only [runReconn, hstep, Bool.false_eq_true, if_false]
        simp only [maxReconnectAttempts] at hrec ⊢
        omega

/-- C4: for every recording session, (i) the reconnection-attempt counter
never exceeds the ceiling of 3 along any event trace; (ii) in any stretch
with no successful open, at most `3 - attempts` further attempts are made;
(iii) the counter is reset to zero on every successful connection open; and
(iv) once the ceiling is reached, a further callback on a closed socket
makes no new attempt and stops the recording instead. -/
theorem reconnect_ceiling (es : List ConnEvent) (s : ReconnState)
    (hs : s.attempts ≤ maxReconnectAttempts) :
    (runReconn s es).1.attempts ≤ maxReconnectAttempts ∧
      (ConnEvent.openSuccess ∉ es →
        (runReconn s es).2 + s.attempts ≤ maxReconnectAttempts) ∧
      (∀ u : ReconnState, (reconnStep u ConnEvent.openSuccess).1.attempts = 0) ∧
      (∀ u : ReconnState, u.attempts = maxReconnectAttempts →
        reconnStep u ConnEvent.frameWhileClosed =
          ({ attempts := u.attempts, recording := false }, false)) := by
  refine ⟨runReconn_attempts_le es s hs,
    fun hmem => runReconn_count_le es s hmem hs, fun u => rfl, fun u hu => ?_⟩
  simp [reconnStep, hu, maxReconnectAttempts]

/-- Witness for C4 at the spec's scenario: 4 consecutive transport failures
with a ceiling of 3 make exactly 3 attempts, end with the counter at the
ceiling, and tear the session down (recording stopped) instead of a 4th
attempt. -/
theorem reconnect_ceiling_witness :
    ((runReconn { attempts := 0, recording := true }
        [ConnEvent.frameWhileClosed, ConnEvent.frameWhileClosed,
          ConnEvent.frameWhileClosed, ConnEvent.frameWhileClosed]).2 + 0 ≤
      maxReconnectAttempts) ∧
    runReconn { attempts := 0, recording := true }
        [ConnEvent.frameWhileClosed, ConnEvent.frameWhileClosed,
          ConnEvent.frameWhileClosed, ConnEvent.frameWhileClosed] =
      ({ attempts := 3, recording := false }, 3) :=
  ⟨(reconnect_ceiling _ _ (by decide)).2.1 (by decide), by decide⟩

/-- Helper: the quantizer output is within the signed 16-bit range for every
gain and every sample, because of the clamp. -/
theorem quantizeSample_bounds (g x : ℚ) :
    -32768 ≤ quantizeSample g x ∧ quantizeSample g x ≤ 32767 := by
  simp only [quantizeSample]
  set c := max (-1 : ℚ) (min 1 (x * g)) with hc
  have hc1 : (-1 : ℚ) ≤ c := le_max_left _ _
  have hc2 : c ≤ 1 := max_le (by norm_num) (min_le_left _ _)
  by_cases hneg : c < 0
  · rw [if_pos hneg]
    simp only [jsTruncToInt]
    have hv : ¬ (0 ≤ c * 32768) := by nlinarith
    rw [if_neg hv]
    constructor
    · have h1 : ⌊-(c * 32768)⌋ ≤ 32768 := by
        have hle : -(c * 32768) ≤ ((32768 : ℤ) : ℚ) := by push_cast; nlinarith
        calc ⌊-(c * 32768)⌋ ≤ ⌊((32768 : ℤ) : ℚ)⌋ := Int.floor_le_floor hle
          _ = 32768 := Int.floor_intCast 32768
      omega
    · have h2 : 0 ≤ ⌊-(c * 32768)⌋ := Int.floor_nonneg.mpr (by nlinarith)
      omega
  · rw [if_neg hneg]
    simp only [jsTruncToInt]
    push_neg at hneg
    have hv : 0 ≤ c * 32767 := by nlinarith
    rw [if_pos hv]
    constructor
    · have h2 := Int.floor_nonneg.mpr hv
      omega
    · have h3 : ⌊c * 32767⌋ ≤ 32767 := by
        have hle : c * 32767 ≤ ((32767 : ℤ) : ℚ) := by push_cast; nlinarith
        calc ⌊c * 32767⌋ ≤ ⌊((32767 : ℤ) : ℚ)⌋ := Int.floor_le_floor hle
          _ = 32767 := Int.floor_intCast 32767
      omega

/-- C9: every PCM sample emitted by the quantizer lies in the signed 16-bit
range [-32768, 32767] for every input sample and every peak amplitude; the
dynamic gain is always one of 2.0, 1.5 or 1.2 and is non-increasing in the
frame's peak amplitude. -/
theorem pcm_sample_in_int16_range :
    (∀ x p : ℚ, -32768 ≤ quantizeSample (dynamicGain p) x ∧
        quantizeSample (dynamicGain p) x ≤ 32767) ∧
      (∀ p : ℚ, dynamicGain p = 2 ∨ dynamicGain p = 3/2 ∨ dynamicGain p = 6/5) ∧
      (∀ p q : ℚ, p ≤ q → dynamicGain q ≤ dynamicGain p) := by
  refine ⟨fun x p => quantizeSample_bounds _ x, fun p => ?_, fun p q hpq => ?_⟩
  · simp only [dynamicGain]
    split_ifs <;> norm_num
  · simp only [dynamicGain]
    split_ifs <;> linarith

/-- Witness for C9: a concrete loud sample at maximal gain stays in range,
and the gain at peak 1 is at most the gain at peak 0. -/
theorem pcm_sample_in_int16_range_witness :
    (-32768 ≤ quantizeSample (dynamicGain 0) (7/10) ∧
        quantizeSample (dynamicGain 0) (7/10) ≤ 32767) ∧
      ((0 : ℚ) ≤ 1 ∧ dynamicGain 1 ≤ dynamicGain 0) :=
  ⟨pcm_sample_in_int16_range.1 (7/10) 0,
    by norm_num, pcm_sample_in_int16_range.2.2 0 1 (by norm_num)⟩

/-- Trimming the empty string gives the empty string. -/
theorem jsTrim_nil : jsTrim [] = [] := rfl

/-- Helper: appending into an empty message commits the trimmed text. -/
theorem appendValue_nil (T : JStr) :
    appendValue [] T = if (jsTrim T).isEmpty then [] else jsTrim T := by
  by_cases h : (jsTrim T).isEmpty
  · simp [appendValue, h, jsTrim_nil]
  · simp [appendValue, h, jsTrim_nil]

/-- Helper: appending text whose trim equals the trim of the current message
is a no-op, caught by the exact-match branch of the dedupe check. -/
theorem appendValue_eq_of_trim_eq (p v : JStr) (hpv : jsTrim p = jsTrim v)
    (hv : (jsTrim v).isEmpty = false) : appendValue p v = p := by
  simp [appendValue, hpv, hv]

/-- C6: appending text that is already (as a whole) the current committed
message is a no-op: for every text `T`,
`appendValue (appendValue [] T) T = appendValue [] T`, where
`appendValue [] T` is the message state after committing `T` into an empty
input. -/
theorem append_commit_idempotent (T : JStr) :
    appendValue (appendValue [] T) T = appendValue [] T := by
  by_cases h : (jsTrim T).isEmpty
  · rw [appendValue_nil, if_pos h]
    rw [appendValue_nil, if_pos h]
  · rw [appendValue_nil, if_neg h]
    exact appendValue_eq_of_trim_eq _ _ (jsTrim_idem T)
      (Bool.eq_false_iff.mpr h)

/-- The word-overlap ratio between new text and the current message,
computed exactly as `appendValue` computes it: the fraction of the new
text's (lowercased, space-split) words already present among the current
message's words. -/
def wordOverlapRatio (prev value : JStr) : ℚ :=
  ((((jsSplitP (fun c => c == ' ') (jsToLower (jsTrim value))).filter
      (fun w => (jsSplitP (fun c => c == ' ') (jsToLower (jsTrim prev))).contains w)).length : ℚ)) /
    (((jsSplitP (fun c => c == ' ') (jsToLower (jsTrim value))).length : ℚ))

/-- C7: appending text more than 70% of whose words are already present in
the current committed message (both non-blank) is a no-op: the message
state is unchanged, whether the text is caught by the exact/containment
check or by the overlap check. -/
theorem append_high_overlap_noop (prev value : JStr)
    (hv : (jsTrim value).isEmpty = false) (hp : (jsTrim prev).isEmpty = false)
    (hover : wordOverlapRatio prev value > 7/10) :
    appendValue prev value = prev := by
  simp only [wordOverlapRatio] at hover
  simp only [appendValue, hv, hp, Bool.false_eq_true, if_false]
  by_cases hdup : (jsToLower (jsTrim prev) == jsToLower (jsTrim value) ||
      jsIncludes (jsToLower (jsTrim prev)) (jsToLower (jsTrim value))) = true
  · rw [if_pos hdup]
  · rw [if_neg hdup, if_pos hover]

/-- Witness for C7: appending `"world hello"` to the message
`"hello world foo"` has overlap ratio 1 and leaves the message unchanged. -/
theorem append_high_overlap_noop_witness :
    appendValue "hello world foo".data "world hello".data =
      "hello world foo".data ∧
    wordOverlapRatio "hello world foo".data "world hello".data = 1 := by
  have hnum : ((jsSplitP (fun c => c == ' ')
        (jsToLower (jsTrim "world hello".data))).filter
      (fun w => (jsSplitP (fun c => c == ' ')
        (jsToLower (jsTrim "hello world foo".data))).contains w)).length = 2 := by
    decide
  have hden : (jsSplitP (fun c => c == ' ')
      (jsToLower (jsTrim "world hello".data))).length = 2 := by decide
  have hratio : wordOverlapRatio "hello world foo".data "world hello".data = 1 := by
    rw [wordOverlapRatio, hnum, hden]
    norm_num
  exact ⟨append_high_overlap_noop _ _ (by decide) (by decide)
    (by rw [hratio]; norm_num), hratio⟩

/-- C5: on transport close, on recording stop, and immediately before a
message is sent, a pending word buffer with non-blank text is committed —
appended to the message input through `appendValue` — and then cleared, so
such text is never silently discarded by these events. -/
theorem pending_buffer_committed_on_events (s : InputState)
    (h : (jsTrim s.buffer).isEmpty = false) :
    finalizeOnClose s =
        { buffer := [], message := appendValue s.message (jsTrim s.buffer) } ∧
      finalizeOnStop s =
        { buffer := [], message := appendValue s.message (jsTrim s.buffer) } ∧
      finalizeBeforeSend s =
        { buffer := [], message := appendValue s.message (jsTrim s.buffer) } := by
  refine ⟨?_, ?_, ?_⟩ <;>
    simp [finalizeOnClose, finalizeOnStop, finalizeBeforeSend, h]

/-- Witness for C5 at the spec's scenario: a transport close with buffered
word text `"send this mess"` commits that text into an empty message input
rather than discarding it, and likewise for stop and send. -/
theorem pending_buffer_committed_on_events_witness :
    (finalizeOnClose { buffer := "send this mess".data, message := [] } =
        { buffer := [],
          message := appendValue [] (jsTrim "send this mess".data) } ∧
      finalizeOnStop { buffer := "send this mess".data, message := [] } =
        { buffer := [],
          message := appendValue [] (jsTrim "send this mess".data) } ∧
      finalizeBeforeSend { buffer := "send this mess".data, message := [] } =
        { buffer := [],
          message := appendValue [] (jsTrim "send this mess".data) }) ∧
      appendValue [] (jsTrim "send this mess".data) = "send this mess".data :=
  ⟨pending_buffer_committed_on_events
      { buffer := "send this mess".data, message := [] } (by decide), by decide⟩

/-- Audio-forwarding state with a reconnect in flight: the replacement
socket is still CONNECTING and the queue is empty. -/
def connectingState : AudioSendState :=
  { readyState := .connecting, socketReady := false, userStopped := false,
    reconnAttempts := 1, audioBuffer := [], sent := [] }

/-- Audio-forwarding state in the OPEN-but-not-ready window with a full
queue holding the 20 oldest frames. -/
def fullBufferState : AudioSendState :=
  { readyState := .wsOpen, socketReady := false, userStopped := false,
    reconnAttempts := 0, audioBuffer := List.range 20, sent := [] }

/-- Counterexample to C2 as stated: with a reconnect in flight (readyState
CONNECTING) the callback returns early, so a produced frame is dropped — not
queued (the queue stays empty); and when the queue is full (20 frames) the
incoming frame is the one discarded while the 20 oldest queued frames are
all retained — the opposite of oldest-first eviction. -/
theorem reconnect_audio_dropped_counterexample :
    audioFrameStep connectingState 7 = (connectingState, FrameOutcome.dropped) ∧
      audioFrameStep fullBufferState 99 =
        (fullBufferState, FrameOutcome.dropped) ∧
      (99 : ℕ) ∉ fullBufferState.audioBuffer :=
  ⟨rfl, rfl, by decide⟩

/-- C2 amended: frames arriving while the socket is CONNECTING are dropped,
not queued; the bounded queue is used only in the window where the socket's
readyState is OPEN but the `onopen` handler has not yet marked it ready —
there a frame is appended while the queue holds fewer than
`MAX_BUFFER_SIZE = 20` frames, and once full the incoming (newest) frame is
discarded with the queued frames retained; when the handler has marked the
socket ready, the queue is flushed in arrival order before the current
frame; and the queue length never exceeds `MAX_BUFFER_SIZE`. -/
theorem audio_buffering_behaviour (s : AudioSendState) (f : ℕ)
    (hstop : s.userStopped = false) :
    (s.readyState = WSReady.connecting → audioFrameStep s f = (s, .dropped)) ∧
      (s.readyState = WSReady.wsOpen → s.socketReady = false →
        s.audioBuffer.length < MAX_BUFFER_SIZE →
        audioFrameStep s f =
          ({ s with audioBuffer := s.audioBuffer ++ [f] }, .buffered)) ∧
      (s.readyState = WSReady.wsOpen → s.socketReady = false →
        ¬ s.audioBuffer.length < MAX_BUFFER_SIZE →
        audioFrameStep s f = (s, .dropped)) ∧
      (s.readyState = WSReady.wsOpen → s.socketReady = true →
        audioFrameStep s f =
          ({ s with audioBuffer := [], sent := s.sent ++ s.audioBuffer ++ [f] },
            .sentNow)) ∧
      (s.audioBuffer.length ≤ MAX_BUFFER_SIZE →
        (audioFrameStep s f).1.audioBuffer.length ≤ MAX_BUFFER_SIZE) := by
  refine ⟨?_, ?_, ?_, ?_, ?_⟩
  · intro h1
    simp [audioFrameStep, hstop, h1]
  · intro h1 h2 h3
    simp [audioFrameStep, hstop, h1, h2, h3]
  · intro h1 h2 h3
    simp [audioFrameStep, hstop, h1, h2, h3]
  · intro h1 h2
    simp [audioFrameStep, hstop, h1, h2]
  · intro hlen
    simp only [audioFrameStep, hstop]
    split_ifs <;> simp_all <;> omega

/-- Audio-forwarding state in the OPEN-but-not-ready window with two queued
frames. -/
def partialBufferState : AudioSendState :=
  { readyState := .wsOpen, socketReady := false, userStopped := false,
    reconnAttempts := 0, audioBuffer := [1, 2], sent := [] }

/-- Audio-forwarding state on a ready socket with two still-queued frames. -/
def readyBufferState : AudioSendState :=
  { readyState := .wsOpen, socketReady := true, userStopped := false,
    reconnAttempts := 0, audioBuffer := [1, 2], sent := [] }

/-- Witness for the amended C2: a frame arriving in the OPEN-but-not-ready
window joins the queue in order, and once the socket is marked ready the
queue is flushed in order before the current frame. -/
theorem audio_buffering_behaviour_witness :
    audioFrameStep partialBufferState 3 =
        ({ partialBufferState with audioBuffer := [1, 2, 3] },
          FrameOutcome.buffered) ∧
      audioFrameStep readyBufferState 3 =
        ({ readyBufferState with audioBuffer := [], sent := [1, 2, 3] },
          FrameOutcome.sentNow) :=
  ⟨(audio_buffering_behaviour partialBufferState 3 rfl).2.1 rfl rfl (by decide),
    (audio_buffering_behaviour readyBufferState 3 rfl).2.2.2.1 rfl rfl⟩

/-- Helper: pointwise characterization of the resampling loop.  The `i`-th
output sample is the linear interpolation of the source at
`idx = i * (sourceRate / targetRate)` — the code computes it as
`i / (targetRate / sourceRate)`, which is the same rational — clamped to the
last source sample when `⌈idx⌉` reaches the source length. -/
theorem resampleFrame_getD (src : List ℚ) (sR tR : ℚ) (i : ℕ)
    (hi : i < (⌊(src.length : ℚ) * (tR / sR)⌋).toNat) :
    (resampleFrame src sR tR).getD i 0 =
      if (src.length : ℤ) ≤ ⌈(i : ℚ) * (sR / tR)⌉ then src.getLastD 0
      else
        src.getD (⌊(i : ℚ) * (sR / tR)⌋).toNat 0 *
            (1 - ((i : ℚ) * (sR / tR) - (⌊(i : ℚ) * (sR / tR)⌋ : ℚ))) +
          src.getD (⌈(i : ℚ) * (sR / tR)⌉).toNat 0 *
            ((i : ℚ) * (sR / tR) - (⌊(i : ℚ) * (sR / tR)⌋ : ℚ)) := by
  have hdiv : (i : ℚ) / (tR / sR) = (i : ℚ) * (sR / tR) := by
    rw [div_eq_mul_inv, inv_div]
  simp only [resampleFrame]
  rw [List.getD_eq_getElem?_getD, List.getElem?_map, List.getElem?_range hi]
  simp only [Option.map_some', Option.getD_some, hdiv]

/-- Counterexample to C3 as stated: for the source frame `[0, 1, 0, 1]` at
source rate 32000 and target rate 16000, the code's output sample 1 is
`source[2] = 0`, while the claim's formula `idx = i · (targetRate/sourceRate)`
gives `idx = 1/2` and predicts `source[0]·(1/2) + source[1]·(1/2) = 1/2`. -/
theorem resample_ratio_direction_counterexample :
    (resampleFrame [0, 1, 0, 1] 32000 16000).getD 1 0 = 0 ∧
      claimedResampleFormula [0, 1, 0, 1] 32000 16000 1 = 1/2 ∧
      ((0 : ℚ) ≠ 1/2) := by
  have hi : (1 : ℕ) < (⌊((List.length ([0, 1, 0, 1] : List ℚ)) : ℚ) *
      ((16000 : ℚ) / 32000)⌋).toNat := by
    norm_num
  refine ⟨?_, ?_, by norm_num⟩
  · rw [resampleFrame_getD _ _ _ _ hi]
    have hidx : ((1 : ℕ) : ℚ) * ((32000 : ℚ) / 16000) = 2 := by norm_num
    rw [hidx]
    have hc : ⌈(2 : ℚ)⌉ = 2 := by rw [Int.ceil_eq_iff] <;> norm_num
    have hf : ⌊(2 : ℚ)⌋ = 2 := by rw [Int.floor_eq_iff] <;> norm_num
    rw [hc, hf]
    norm_num
    rfl
  · simp only [claimedResampleFormula]
    have hidx : ((1 : ℕ) : ℚ) * ((16000 : ℚ) / 32000) = 1/2 := by norm_num
    rw [hidx]
    have hc : ⌈(1 : ℚ)/2⌉ = 1 := by rw [Int.ceil_eq_iff] <;> norm_num
    have hf : ⌊(1 : ℚ)/2⌋ = 0 := by norm_num
    rw [hc, hf]
    norm_num

/-- C3 amended: when the source sample rate differs from the target rate,
every output sample `i` of the resampler equals
`source[⌊idx⌋]·(1−f) + source[⌈idx⌉]·f` where
`idx = i · (sourceRate/targetRate)` — the code's `i / (targetRate/sourceRate)`
— and `f` is the fractional part of `idx`, except that at the upper boundary
(`⌈idx⌉` beyond the last source sample) the output is clamped to the last
source sample. -/
theorem resample_linear_interpolation (src : List ℚ) (sR tR : ℚ) (i : ℕ)
    (hne : sR ≠ tR)
    (hi : i < (⌊(src.length : ℚ) * (tR / sR)⌋).toNat) :
    (resampleFrame src sR tR).getD i 0 =
      if (src.length : ℤ) ≤ ⌈(i : ℚ) * (sR / tR)⌉ then src.getLastD 0
      else
        src.getD (⌊(i : ℚ) * (sR / tR)⌋).toNat 0 *
            (1 - ((i : ℚ) * (sR / tR) - (⌊(i : ℚ) * (sR / tR)⌋ : ℚ))) +
          src.getD (⌈(i : ℚ) * (sR / tR)⌉).toNat 0 *
            ((i : ℚ) * (sR / tR) - (⌊(i : ℚ) * (sR / tR)⌋ : ℚ)) :=
  resampleFrame_getD src sR tR i hi

/-- Witness for the amended C3 at the counterexample's own input: rates
32000 → 16000 differ, index 1 is in range, and the interpolation formula
with the corrected ratio direction evaluates to the code's output 0. -/
theorem resample_linear_interpolation_witness :
    ((32000 : ℚ) ≠ 16000) ∧
      (resampleFrame [0, 1, 0, 1] 32000 16000).getD 1 0 = 0 := by
  have happ := resample_linear_interpolation [0, 1, 0, 1] 32000 16000 1
    (by norm_num) (by norm_num)
  refine ⟨by norm_num, ?_⟩
  rw [happ]
  have hidx : ((1 : ℕ) : ℚ) * ((32000 : ℚ) / 16000) = 2 := by norm_num
  rw [hidx]
  have hc : ⌈(2 : ℚ)⌉ = 2 := by rw [Int.ceil_eq_iff] <;> norm_num
  have hf : ⌊(2 : ℚ)⌋ = 2 := by rw [Int.floor_eq_iff] <;> norm_num
  rw [hc, hf]
  norm_num
  rfl
